import Mathlib

/-!
Formal model of the EEW alert pipeline.

The definitions below are a shallow embedding of the two core source files:

* `src/client/http.py` — `HTTPEEWClient`: the polling/diffing engine.
  Its mutable dict `_alerts : dict[str, EEW]` is modelled as an association
  list with Python-dict semantics (`dget`, `dinsert`, `dpop`, `dkeys`);
  the body of `_get_request` is modelled by `processSnapshot` (diff of one
  successfully fetched snapshot) and `getRequest` (the retry wrapper).
  Exceptions that escape the per-alert loop are modelled by the `LoopRes.exn`
  constructor carrying the state and events produced before the raise.

* `src/notify/discord.py` — `EEWMessages` / `DiscordNotification`: the
  per-alert message set with its cached map URL (`editMessages`,
  `updateEewData`, `sendMsgSet`) and the refresh loop's stop check
  (`tickStops`).

`asyncio.gather(..., return_exceptions=True)`, used by `new_alert`,
`update_alert` and `lift_alert` to fan events out to notification backends,
is modelled by `gatherResults`.
-/

namespace EEWSpec

/-- An EEW alert record: the fields of `EEW` (src/earthquake/eew.py) used for
identity and version comparison by the client (`eew.id`, `eew.serial`). -/
structure EEW where
  id : String
  serial : Int
deriving DecidableEq

/-- One alert entry of the JSON snapshot returned by the upstream feed.
The client reads `d["id"]` and `d["serial"]` directly; `malformed` marks a
payload on which record construction (`EEW.from_dict`) raises. -/
structure Payload where
  id : String
  serial : Int
  malformed : Bool
deriving DecidableEq

/-- Python-dict lookup (`m.get(k)` / `m[k]`). -/
def dget {α : Type} : List (String × α) → String → Option α
  | [], _ => none
  | (k2, v) :: rest, k => if k2 = k then some v else dget rest k

/-- Python-dict assignment `m[k] = v`: replaces the value of an existing key
in place, appends a fresh key at the end (insertion order preserved). -/
def dinsert {α : Type} : List (String × α) → String → α → List (String × α)
  | [], k, v => [(k, v)]
  | (k2, v2) :: rest, k, v =>
    if k2 = k then (k, v) :: rest else (k2, v2) :: dinsert rest k v

/-- Python-dict removal `m.pop(k, None)`: drops the entry for `k` when
present, identity otherwise. -/
def dpop {α : Type} : List (String × α) → String → List (String × α)
  | [], _ => []
  | (k2, v2) :: rest, k => if k2 = k then rest else (k2, v2) :: dpop rest k

/-- Python-dict `m.keys()`. -/
def dkeys {α : Type} (m : List (String × α)) : List String :=
  m.map Prod.fst

/-- The client's `_alerts` dict (`KnownAlertSet` of the specification). -/
abbrev AlertDict := List (String × EEW)

/-- Modelled from the spec: `EEW.from_dict` (src/earthquake/eew.py, not part
of the verified sources) builds an `EEW` record from one feed payload; the
spec states that a malformed per-alert payload may fail record construction,
modelled here as raising exactly on `d.malformed`. -/
def fromDict (d : Payload) : Option EEW :=
  if d.malformed then none else some ⟨d.id, d.serial⟩

/-- Lifecycle events emitted by the poll loop: `new_alert`, `update_alert`
and `lift_alert` in src/client/http.py. -/
inductive Event where
  | new : String → Int → Event
  | update : String → Int → Event
  | lift : String → Event
deriving DecidableEq

/-- Derived-data computation actions: `_calc_task.cancel()` and
`calc_all_data_in_executor` calls, recorded with the alert id and the serial
of the version they concern. -/
inductive CalcAction where
  | cancel : String → Int → CalcAction
  | start : String → Int → CalcAction
deriving DecidableEq

/-- Result of running (part of) one poll body: `ok` is a normal return,
`exn` an exception escaping `_get_request` (its task dies; the state and the
events produced before the raise are kept, everything after is skipped). -/
inductive LoopRes where
  | ok : AlertDict → List Event → List CalcAction → LoopRes
  | exn : AlertDict → List Event → List CalcAction → LoopRes
deriving DecidableEq

/-- The alert dict carried by a `LoopRes`. -/
def alertsOf : LoopRes → AlertDict
  | LoopRes.ok a _ _ => a
  | LoopRes.exn a _ _ => a

/-- The events carried by a `LoopRes`. -/
def eventsOf : LoopRes → List Event
  | LoopRes.ok _ e _ => e
  | LoopRes.exn _ e _ => e

/-- The calc actions carried by a `LoopRes`. -/
def calcOf : LoopRes → List CalcAction
  | LoopRes.ok _ _ c => c
  | LoopRes.exn _ _ c => c

/-- One iteration of the per-alert loop of `_get_request`
(src/client/http.py lines 91-99): look the id up in `_alerts`; unknown id
runs `new_alert` (build record, insert, start calc, emit `new`), a known id
with a differing serial runs `update_alert` (build record, replace, cancel
the superseded calc task, start the new calc, emit `update`), an equal
serial is a no-op.  A raise from `EEW.from_dict` happens before any state
mutation of that iteration. -/
def processPayload (alerts : AlertDict) (d : Payload) : LoopRes :=
  match dget alerts d.id with
  | none =>
    match fromDict d with
    | none => LoopRes.exn alerts [] []
    | some eew =>
      LoopRes.ok (dinsert alerts d.id eew) [Event.new d.id d.serial]
        [CalcAction.start d.id d.serial]
  | some eew =>
    if eew.serial = d.serial then LoopRes.ok alerts [] []
    else
      match fromDict d with
      | none => LoopRes.exn alerts [] []
      | some neew =>
        LoopRes.ok (dinsert alerts d.id neew) [Event.update d.id d.serial]
          [CalcAction.cancel d.id eew.serial, CalcAction.start d.id d.serial]

/-- The whole per-alert loop: payloads are processed in snapshot order; an
exception aborts the loop, keeping the mutations and events already made. -/
def processLoop (alerts : AlertDict) : List Payload → LoopRes
  | [] => LoopRes.ok alerts [] []
  | d :: rest =>
    match processPayload alerts d with
    | LoopRes.ok a e c =>
      match processLoop a rest with
      | LoopRes.ok a2 e2 c2 => LoopRes.ok a2 (e ++ e2) (c ++ c2)
      | LoopRes.exn a2 e2 c2 => LoopRes.exn a2 (e ++ e2) (c ++ c2)
    | LoopRes.exn a e c => LoopRes.exn a e c

/-- `_check_finished_alerts`: the ids known before the loop that no payload
of the snapshot mentions (every `d["id"]` is discarded from the set). -/
def finishedIds (alerts : AlertDict) (data : List Payload) : List String :=
  (dkeys alerts).filter (fun id => !(data.any (fun d => d.id == id)))

/-- The `remove finished alerts` phase of `_get_request` (lines 101-105):
each finished id is popped from `_alerts`; if it was still present,
`lift_alert` is awaited, which emits the `lift` event. -/
def liftPhase : AlertDict → List String → AlertDict × List Event
  | alerts, [] => (alerts, [])
  | alerts, id :: rest =>
    match dget alerts id with
    | some _ =>
      let r := liftPhase (dpop alerts id) rest
      (r.1, Event.lift id :: r.2)
    | none => liftPhase (dpop alerts id) rest

/-- Diffing one successfully fetched snapshot against `_alerts`
(src/client/http.py lines 78-105 after a successful GET): an empty (falsy)
body returns at once (`if not data: return`); otherwise the per-alert loop
runs and, if it did not raise, the finished ids are lifted. -/
def processSnapshot (alerts : AlertDict) (data : List Payload) : LoopRes :=
  match data with
  | [] => LoopRes.ok alerts [] []
  | d :: rest =>
    match processLoop alerts (d :: rest) with
    | LoopRes.ok a e c =>
      let r := liftPhase a (finishedIds alerts (d :: rest))
      LoopRes.ok r.1 (e ++ r.2) c
    | LoopRes.exn a e c => LoopRes.exn a e c

/-- Outcome of `_get_request` including the number of `recreate_session`
calls made on the retry path. -/
structure FetchOut where
  res : LoopRes
  recreates : Nat
deriving DecidableEq

/-- `_get_request(retry)` with its retry recursion: attempt the GET
(`fetch attempt`, where `none` models a transport/parse exception); on
failure with `retry > 0`, `recreate_session()` and recurse with `retry - 1`;
with the budget exhausted, log and return without touching `_alerts`.  The
poll loop calls it as `_get_request(3)`, i.e. `getRequest fetch alerts 3 0`
(retry budget first, attempt index second). -/
def getRequest (fetch : Nat → Option (List Payload)) (alerts : AlertDict) :
    Nat → Nat → FetchOut
  | 0, attempt =>
    match fetch attempt with
    | some data => ⟨processSnapshot alerts data, 0⟩
    | none => ⟨LoopRes.ok alerts [] [], 0⟩
  | Nat.succ r, attempt =>
    match fetch attempt with
    | some data => ⟨processSnapshot alerts data, 0⟩
    | none =>
      let out := getRequest fetch alerts r (attempt + 1)
      ⟨out.res, out.recreates + 1⟩

/-- A sequence of successive polls, each diffing one successfully fetched
snapshot; the task of a poll that raised dies but the next tick of `_loop`
starts a fresh one from the state left behind. -/
def runPolls (alerts : AlertDict) : List (List Payload) → AlertDict × List Event
  | [] => (alerts, [])
  | s :: rest =>
    let r := processSnapshot alerts s
    let q := runPolls (alertsOf r) rest
    (q.1, eventsOf r ++ q.2)

/-- A registered notification backend (`NotificationClient` of
src/notification): the three capability methods the client invokes.  An
`Except.error` result models the coroutine raising. -/
structure Backend where
  sendEew : EEW → Except String Unit
  updateEew : EEW → Except String Unit
  liftEew : EEW → Except String Unit

/-- `asyncio.gather` over the already-determined per-coroutine outcomes:
with `return_exceptions = true` every outcome (exception included) is
collected into the result list and nothing propagates; with
`return_exceptions = false` the first exception propagates to the caller. -/
def gatherResults (returnExceptions : Bool) (rs : List (Except String Unit)) :
    Except String (List (Except String Unit)) :=
  if returnExceptions then Except.ok rs
  else
    match rs.findSome? (fun r => match r with
      | Except.error msg => some msg
      | Except.ok _ => none) with
    | some msg => Except.error msg
    | none => Except.ok rs

/-- The fan-out performed by `new_alert` / `update_alert` / `lift_alert`
(src/client/http.py lines 44-46, 69-76):
`await asyncio.gather(*(call(c)(eew) for c in self._notification_client),
return_exceptions=True)`.  `call` selects which capability method the event
invokes (`Backend.sendEew`, `Backend.updateEew` or `Backend.liftEew`). -/
def dispatchEvent (call : Backend → EEW → Except String Unit)
    (backends : List Backend) (eew : EEW) :
    Except String (List (Except String Unit)) :=
  gatherResults true (backends.map (fun b => call b eew))

/-- The state of one `EEWMessages` object (src/notify/discord.py): the
tracked alert, the surviving destination message handles (one per channel
whose initial send succeeded) and the cached map artifact URL (`map_url`,
`None` until the first successful upload of the current version).  The
`_info_embed` / `_intensity_embed` fields are pure renderings recomputed
from `eew` and the wall clock; no claim mentions them and their rendering
code lives outside the verified sources, so they are not part of the
state. -/
structure MsgSet where
  eew : EEW
  messages : List Nat
  mapUrl : Option String
deriving DecidableEq

/-- Python truthiness of `self.map_url` as tested by `if not self.map_url`:
falsy when `None` and also when the cached URL is the empty string. -/
def isFalsyUrl : Option String → Bool
  | none => true
  | some s => s == ""

/-- Exceptions that can escape `EEWMessages.edit`. -/
inductive EditErr where
  | indexError
  | editError
deriving DecidableEq

/-- Observable outcome of one `EEWMessages.edit` call: the state it leaves,
how many map-artifact uploads it performed, which message handles had an
edit attempted (in order), and the exception that escaped, if any. -/
structure EditOut where
  state : MsgSet
  uploads : Nat
  attempted : List Nat
  raised : Option EditErr
deriving DecidableEq

/-- `EEWMessages.edit` (src/notify/discord.py lines 134-154).  When
`map_url` is falsy, `self.messages[0]` is indexed unconditionally (an
`IndexError` on an empty list) and edited directly — not through the
exception-swallowing `_edit_singal_message` — with the rendered map attached
(`beh m0 = false` models that edit raising, which escapes `edit`); on
success the platform-assigned URL (`uploadUrl`, standing for
`m.embeds[1].image.url`) is cached.  When `map_url` is already truthy, the
primary message is edited through `_edit_singal_message` instead and no
upload happens.  In both non-raising paths the remaining messages are then
gathered through `_edit_singal_message`, which catches every exception, so
their edits are all attempted whatever `beh` says. -/
def editMessages (beh : Nat → Bool) (uploadUrl : String) (s : MsgSet) :
    EditOut :=
  if isFalsyUrl s.mapUrl then
    match s.messages with
    | [] => ⟨s, 0, [], some EditErr.indexError⟩
    | m0 :: rest =>
      if beh m0 then
        ⟨⟨s.eew, s.messages, some uploadUrl⟩, 1, m0 :: rest, none⟩
      else ⟨s, 0, [m0], some EditErr.editError⟩
  else
    match s.messages with
    | [] => ⟨s, 0, [], some EditErr.indexError⟩
    | m0 :: rest => ⟨s, 0, m0 :: rest, none⟩

/-- `EEWMessages.update_eew_data` (src/notify/discord.py lines 156-169):
install the new alert version, reset the cached map URL to `None`, re-render
the info embed and recompute the derived data for the new version. -/
def updateEewData (e : EEW) (s : MsgSet) : MsgSet :=
  ⟨e, s.messages, none⟩

/-- A run of consecutive refresh ticks for one `EEWMessages`: each tick
calls `edit` (with that tick's platform-assigned upload URL) and the next
tick starts from the state it left; the total number of map uploads is
accumulated. -/
def runTicks (beh : Nat → Bool) : List String → MsgSet → MsgSet × Nat
  | [], s => (s, 0)
  | u :: rest, s =>
    let o := editMessages beh u s
    let r := runTicks beh rest o.state
    (r.1, o.uploads + r.2)

/-- `EEWMessages.send` (src/notify/discord.py lines 100-132): send the info
embed to every configured channel concurrently; `filter(None, ...)` drops
the destinations whose send raised (`sendBeh c = false`), so the new set's
message list holds one handle per successful destination and `map_url`
starts out `None`. -/
def sendMsgSet (sendBeh : Nat → Bool) (channels : List Nat) (e : EEW) :
    MsgSet :=
  ⟨e, channels.filter sendBeh, none⟩

/-- `DiscordNotification.send_eew` (src/notify/discord.py lines 247-257) as
far as the registry is concerned: the freshly built `EEWMessages` is stored
under the alert id unconditionally, even when its message list is empty. -/
def sendEewRegistry (sendBeh : Nat → Bool) (channels : List Nat) (e : EEW)
    (alerts : List (String × MsgSet)) : List (String × MsgSet) :=
  dinsert alerts e.id (sendMsgSet sendBeh channels e)

/-- The stop check of `update_eew_messages_loop`
(src/notify/discord.py lines 259-266): the refresh loop stops itself only
when the registry is empty; otherwise it proceeds to edit every stored
set. -/
def tickStops (alerts : List (String × MsgSet)) : Bool :=
  alerts.isEmpty

/-- A backend whose every capability method raises. -/
def failingBackend : Backend :=
  ⟨fun _ => Except.error "boom", fun _ => Except.error "boom",
   fun _ => Except.error "boom"⟩

/-- A backend whose every capability method succeeds. -/
def okBackend : Backend :=
  ⟨fun _ => Except.ok (), fun _ => Except.ok (), fun _ => Except.ok ()⟩

/-- How one event changes the set of ids that currently have an unretracted
`new`: a `new` activates its id, a `lift` deactivates it, an `update` leaves
it unchanged. -/
def stepAct (act : List String) : Event → List String
  | Event.new id _ => id :: act
  | Event.update _ _ => act
  | Event.lift id => act.erase id

/-- The active-id set after a list of events. -/
def applyEvents (evs : List Event) (act : List String) : List String :=
  evs.foldl stepAct act

/-- Lifecycle well-formedness of an event trace, given the ids active at its
start: every `update` and every `lift` must concern an id with a previously
emitted and not yet lifted `new`. -/
def checkEvents : List Event → List String → Bool
  | [], _ => true
  | Event.new id _ :: rest, act => checkEvents rest (id :: act)
  | Event.update id _ :: rest, act =>
    if id ∈ act then checkEvents rest act else false
  | Event.lift id :: rest, act =>
    if id ∈ act then checkEvents rest (act.erase id) else false

/-- The invariant tying the active-id set of the event trace to the client
state: no duplicate ids on either side, and an id is active exactly when
`_alerts` holds a record for it. -/
def Inv (act : List String) (alerts : AlertDict) : Prop :=
  act.Nodup ∧ (dkeys alerts).Nodup ∧ ∀ id : String, id ∈ act ↔ dget alerts id ≠ none

theorem dget_dinsert {α : Type} (m : List (String × α)) (k k2 : String) (v : α) :
    dget (dinsert m k v) k2 = if k2 = k then some v else dget m k2 := by
  induction m with
  | nil =>
    by_cases h : k2 = k
    · simp [dinsert, dget, h]
    · have h2 : ¬ k = k2 := fun hh => h hh.symm
      simp [dinsert, dget, h, h2]
  | cons hd t ih =>
    obtain ⟨k3, v3⟩ := hd
    by_cases h3 : k3 = k
    · subst h3
      by_cases h2 : k3 = k2
      · subst h2; simp [dinsert, dget]
      · have h4 : ¬ k2 = k3 := fun hh => h2 hh.symm
        simp [dinsert, dget, h2, h4]
    · by_cases h2 : k3 = k2
      · subst h2
        have h4 : ¬ k3 = k := h3
        simp [dinsert, dget, h3, h4]
      · simp [dinsert, dget, h3, h2, ih]

theorem mem_dkeys_iff {α : Type} (m : List (String × α)) (k : String) :
    k ∈ dkeys m ↔ dget m k ≠ none := by
  induction m with
  | nil => simp [dkeys, dget]
  | cons hd t ih =>
    obtain ⟨k2, v2⟩ := hd
    simp only [dkeys] at ih ⊢
    by_cases h : k2 = k
    · subst h; simp [dget]
    · have h2 : ¬ k = k2 := fun hh => h hh.symm
      simp [dget, h, h2, ih]

theorem dkeys_dinsert_of_mem {α : Type} (m : List (String × α)) (k : String) (v : α)
    (h : dget m k ≠ none) : dkeys (dinsert m k v) = dkeys m := by
  induction m with
  | nil => simp [dget] at h
  | cons hd t ih =>
    obtain ⟨k2, v2⟩ := hd
    simp only [dkeys] at ih ⊢
    by_cases h2 : k2 = k
    · subst h2; simp [dinsert]
    · simp only [dget, if_neg h2] at h
      simp [dinsert, h2, ih h]

theorem dkeys_dinsert_of_not_mem {α : Type} (m : List (String × α)) (k : String) (v : α)
    (h : dget m k = none) : dkeys (dinsert m k v) = dkeys m ++ [k] := by
  induction m with
  | nil => simp [dinsert, dkeys]
  | cons hd t ih =>
    obtain ⟨k2, v2⟩ := hd
    simp only [dkeys] at ih ⊢
    by_cases h2 : k2 = k
    · subst h2; simp [dget] at h
    · simp only [dget, if_neg h2] at h
      simp [dinsert, h2, ih h]

theorem dget_dpop_ne {α : Type} (m : List (String × α)) (k k2 : String)
    (h : k2 ≠ k) : dget (dpop m k) k2 = dget m k2 := by
  induction m with
  | nil => simp [dpop]
  | cons hd t ih =>
    obtain ⟨k3, v3⟩ := hd
    by_cases h3 : k3 = k
    · subst h3
      have h4 : ¬ k3 = k2 := fun hh => h hh.symm
      simp [dpop, dget, h4]
    · simp [dpop, dget, h3, ih]

theorem dget_dpop_self {α : Type} (m : List (String × α)) (k : String)
    (h : (dkeys m).Nodup) : dget (dpop m k) k = none := by
  induction m with
  | nil => simp [dpop, dget]
  | cons hd t ih =>
    obtain ⟨k2, v2⟩ := hd
    simp only [dkeys, List.map_cons, List.nodup_cons] at h
    by_cases h2 : k2 = k
    · subst h2
      cases hg : dget t k2 with
      | none => simp [dpop, hg]
      | some v =>
        exact absurd ((mem_dkeys_iff t k2).2 (by simp [hg])) h.1
    · simp [dpop, dget, h2, ih h.2]

theorem dkeys_dpop_sublist {α : Type} (m : List (String × α)) (k : String) :
    List.Sublist (dkeys (dpop m k)) (dkeys m) := by
  induction m with
  | nil => simp [dpop, dkeys]
  | cons hd t ih =>
    obtain ⟨k2, v2⟩ := hd
    by_cases h2 : k2 = k
    · subst h2
      simp only [dpop, if_pos rfl, dkeys, List.map_cons]
      exact List.sublist_cons_self k2 (List.map Prod.fst t)
    · simp only [dpop, if_neg h2, dkeys, List.map_cons]
      exact List.Sublist.cons₂ k2 ih

theorem dpop_of_dget_none {α : Type} (m : List (String × α)) (k : String)
    (h : dget m k = none) : dpop m k = m := by
  induction m with
  | nil => simp [dpop]
  | cons hd t ih =>
    obtain ⟨k2, v2⟩ := hd
    by_cases h2 : k2 = k
    · subst h2; simp [dget] at h
    · simp [dget, h2] at h
      simp [dpop, h2, ih h]

theorem applyEvents_append (e1 e2 : List Event) (act : List String) :
    applyEvents (e1 ++ e2) act = applyEvents e2 (applyEvents e1 act) := by
  simp [applyEvents, List.foldl_append]

theorem checkEvents_append (e1 e2 : List Event) (act : List String) :
    checkEvents (e1 ++ e2) act =
      (checkEvents e1 act && checkEvents e2 (applyEvents e1 act)) := by
  induction e1 generalizing act with
  | nil => simp [checkEvents, applyEvents]
  | cons ev rest ih =>
    cases ev with
    | new id s =>
      simp only [List.cons_append, checkEvents, applyEvents, List.foldl_cons, stepAct]
      exact ih (id :: act)
    | update id s =>
      by_cases h : id ∈ act
      · simp only [List.cons_append, checkEvents, if_pos h, applyEvents,
          List.foldl_cons, stepAct]
        exact ih act
      · simp [checkEvents, if_neg h]
    | lift id =>
      by_cases h : id ∈ act
      · simp only [List.cons_append, checkEvents, if_pos h, applyEvents,
          List.foldl_cons, stepAct]
        exact ih (act.erase id)
      · simp [checkEvents, if_neg h]

theorem processPayload_inv (alerts : AlertDict) (act : List String) (d : Payload)
    (h : Inv act alerts) :
    checkEvents (eventsOf (processPayload alerts d)) act = true ∧
    Inv (applyEvents (eventsOf (processPayload alerts d)) act)
      (alertsOf (processPayload alerts d)) := by
  obtain ⟨hact, hkeys, hmem⟩ := h
  cases hg : dget alerts d.id with
  | none =>
    cases hf : fromDict d with
    | none =>
      simp only [processPayload, hg, hf]
      exact ⟨rfl, hact, hkeys, hmem⟩
    | some eew =>
      simp only [processPayload, hg, hf, eventsOf, alertsOf]
      have hnotact : d.id ∉ act := fun hin => (hmem d.id).1 hin hg
      have hnotkeys : d.id ∉ dkeys alerts := fun hin =>
        (mem_dkeys_iff alerts d.id).1 hin hg
      refine ⟨rfl, ?_, ?_, ?_⟩
      · simp [applyEvents, checkEvents, stepAct, List.nodup_cons, hnotact, hact]
      · rw [dkeys_dinsert_of_not_mem alerts d.id eew hg]
        simp [List.nodup_append, hkeys, hnotkeys]
      · intro id
        simp only [applyEvents, List.foldl_cons, stepAct, List.foldl_nil,
          List.mem_cons, dget_dinsert]
        by_cases hid : id = d.id
        · simp [hid]
        · simp [hid, hmem id]
  | some eew =>
    by_cases hs : eew.serial = d.serial
    · simp only [processPayload, hg, if_pos hs]
      exact ⟨rfl, hact, hkeys, hmem⟩
    · cases hf : fromDict d with
      | none =>
        simp only [processPayload, hg, if_neg hs, hf]
        exact ⟨rfl, hact, hkeys, hmem⟩
      | some neew =>
        simp only [processPayload, hg, if_neg hs, hf, eventsOf, alertsOf]
        have hin : d.id ∈ act := (hmem d.id).2 (by simp [hg])
        have hne : dget alerts d.id ≠ none := by simp [hg]
        refine ⟨by simp [checkEvents, hin], ?_, ?_, ?_⟩
        · simpa [applyEvents, stepAct] using hact
        · rw [dkeys_dinsert_of_mem alerts d.id neew hne]
          exact hkeys
        · intro id
          simp only [applyEvents, List.foldl_cons, stepAct, List.foldl_nil,
            dget_dinsert]
          by_cases hid : id = d.id
          · simp [hid, hin]
          · simp [hid, hmem id]

theorem processLoop_inv (data : List Payload) :
    ∀ (alerts : AlertDict) (act : List String), Inv act alerts →
    checkEvents (eventsOf (processLoop alerts data)) act = true ∧
    Inv (applyEvents (eventsOf (processLoop alerts data)) act)
      (alertsOf (processLoop alerts data)) := by
  induction data with
  | nil =>
    intro alerts act h
    simpa [processLoop, eventsOf, alertsOf, checkEvents, applyEvents] using h
  | cons d rest ih =>
    intro alerts act h
    have hstep := processPayload_inv alerts act d h
    cases hp : processPayload alerts d with
    | ok a e c =>
      rw [hp] at hstep
      simp only [eventsOf, alertsOf] at hstep
      have hrec := ih a (applyEvents e act) hstep.2
      cases hl : processLoop a rest with
      | ok a2 e2 c2 =>
        rw [hl] at hrec
        simp only [eventsOf, alertsOf] at hrec
        simp only [processLoop, hp, hl, eventsOf, alertsOf]
        rw [checkEvents_append, applyEvents_append]
        exact ⟨by rw [hstep.1, hrec.1]; rfl, hrec.2⟩
      | exn a2 e2 c2 =>
        rw [hl] at hrec
        simp only [eventsOf, alertsOf] at hrec
        simp only [processLoop, hp, hl, eventsOf, alertsOf]
        rw [checkEvents_append, applyEvents_append]
        exact ⟨by rw [hstep.1, hrec.1]; rfl, hrec.2⟩
    | exn a e c =>
      rw [hp] at hstep
      simp only [eventsOf, alertsOf] at hstep
      simp only [processLoop, hp, eventsOf, alertsOf]
      exact hstep

theorem liftPhaseResult_inv (fin : List String) :
    ∀ (alerts : AlertDict) (act : List String), Inv act alerts →
    checkEvents (liftPhase alerts fin).2 act = true ∧
    Inv (applyEvents (liftPhase alerts fin).2 act) (liftPhase alerts fin).1 := by
  induction fin with
  | nil =>
    intro alerts act h
    simpa [liftPhase, checkEvents, applyEvents] using h
  | cons id rest ih =>
    intro alerts act h
    obtain ⟨hact, hkeys, hmem⟩ := h
    cases hg : dget alerts id with
    | some e =>
      have hid : id ∈ act := (hmem id).2 (by simp [hg])
      have hinv2 : Inv (act.erase id) (dpop alerts id) := by
        refine ⟨hact.erase id, ?_, ?_⟩
        · exact (dkeys_dpop_sublist alerts id).nodup hkeys
        · intro id2
          by_cases hid2 : id2 = id
          · subst hid2
            simp [hact.mem_erase_iff, dget_dpop_self alerts id2 hkeys]
          · rw [hact.mem_erase_iff, dget_dpop_ne alerts id id2 hid2]
            simp [hid2, hmem id2]
      have hrec := ih (dpop alerts id) (act.erase id) hinv2
      simp only [liftPhase, hg]
      constructor
      · simp [checkEvents, hid, hrec.1]
      · simpa [applyEvents, List.foldl_cons, stepAct] using hrec.2
    | none =>
      have hpop : dpop alerts id = alerts := dpop_of_dget_none alerts id hg
      simp only [liftPhase, hg, hpop]
      exact ih alerts act ⟨hact, hkeys, hmem⟩

theorem processSnapshot_inv (data : List Payload) (alerts : AlertDict)
    (act : List String) (h : Inv act alerts) :
    checkEvents (eventsOf (processSnapshot alerts data)) act = true ∧
    Inv (applyEvents (eventsOf (processSnapshot alerts data)) act)
      (alertsOf (processSnapshot alerts data)) := by
  cases data with
  | nil => simpa [processSnapshot, eventsOf, alertsOf, checkEvents, applyEvents] using h
  | cons d rest =>
    have hloop := processLoop_inv (d :: rest) alerts act h
    cases hl : processLoop alerts (d :: rest) with
    | ok a e c =>
      rw [hl] at hloop
      simp only [eventsOf, alertsOf] at hloop
      have hlift := liftPhaseResult_inv (finishedIds alerts (d :: rest)) a
        (applyEvents e act) hloop.2
      simp only [processSnapshot, hl, eventsOf, alertsOf]
      rw [checkEvents_append, applyEvents_append]
      exact ⟨by rw [hloop.1, hlift.1]; rfl, hlift.2⟩
    | exn a e c =>
      rw [hl] at hloop
      simp only [eventsOf, alertsOf] at hloop
      simp only [processSnapshot, hl, eventsOf, alertsOf]
      exact hloop

theorem runPolls_inv (snaps : List (List Payload)) :
    ∀ (alerts : AlertDict) (act : List String), Inv act alerts →
    checkEvents (runPolls alerts snaps).2 act = true := by
  induction snaps with
  | nil => intro alerts act _; simp [runPolls, checkEvents]
  | cons s rest ih =>
    intro alerts act h
    have hs := processSnapshot_inv s alerts act h
    simp only [runPolls]
    rw [checkEvents_append, hs.1, ih (alertsOf (processSnapshot alerts s))
      (applyEvents (eventsOf (processSnapshot alerts s)) act) hs.2]
    rfl

theorem processLoop_append (alerts : AlertDict) (xs ys : List Payload) :
    processLoop alerts (xs ++ ys) =
      match processLoop alerts xs with
      | LoopRes.ok a e c =>
        match processLoop a ys with
        | LoopRes.ok a2 e2 c2 => LoopRes.ok a2 (e ++ e2) (c ++ c2)
        | LoopRes.exn a2 e2 c2 => LoopRes.exn a2 (e ++ e2) (c ++ c2)
      | LoopRes.exn a e c => LoopRes.exn a e c := by
  induction xs generalizing alerts with
  | nil =>
    simp only [List.nil_append, processLoop]
    cases processLoop alerts ys <;> simp
  | cons d rest ih =>
    simp only [List.cons_append, processLoop, List.append_eq]
    cases hp : processPayload alerts d with
    | ok a e c =>
      dsimp only
      rw [ih a]
      cases hl : processLoop a rest with
      | ok a2 e2 c2 => cases hys : processLoop a2 ys <;> simp [hys]
      | exn a2 e2 c2 => simp
    | exn a e c => simp

theorem getRequest_fail_steps (fetch : Nat → Option (List Payload))
    (alerts : AlertDict) :
    ∀ (retry attempt : Nat),
    (∀ k, attempt ≤ k → k ≤ attempt + retry → fetch k = none) →
    getRequest fetch alerts retry attempt = ⟨LoopRes.ok alerts [] [], retry⟩ := by
  intro retry
  induction retry with
  | zero =>
    intro attempt h
    simp [getRequest, h attempt le_rfl (by omega)]
  | succ r ih =>
    intro attempt h
    simp only [getRequest, h attempt le_rfl (by omega)]
    rw [ih (attempt + 1) (fun k hk1 hk2 => h k (by omega) (by omega))]

theorem getRequest_success (fetch : Nat → Option (List Payload))
    (alerts : AlertDict) (retry attempt : Nat) (data : List Payload)
    (h : fetch attempt = some data) :
    getRequest fetch alerts retry attempt = ⟨processSnapshot alerts data, 0⟩ := by
  cases retry with
  | zero => simp [getRequest, h]
  | succ r => simp [getRequest, h]

theorem dinsert_ne_nil {α : Type} (m : List (String × α)) (k : String) (v : α) :
    dinsert m k v ≠ [] := by
  cases m with
  | nil => simp [dinsert]
  | cons hd t =>
    obtain ⟨k2, v2⟩ := hd
    by_cases h : k2 = k <;> simp [dinsert, h]

/-- C1 counterexample: with `KnownAlertSet =` a single known alert `A` and a
successfully fetched empty snapshot, the poll emits no event at all (in
particular no `lift`) and leaves `A` in `KnownAlertSet`, because
`_get_request` hits `if not data: return` before the diff; the claim instead
requires `lift(A)` to be emitted and the set to be emptied. -/
theorem c1_empty_snapshot_keeps_alerts_cex :
    eventsOf (processSnapshot [("A", ⟨"A", 1⟩)] []) = [] ∧
    alertsOf (processSnapshot [("A", ⟨"A", 1⟩)] []) = [("A", ⟨"A", 1⟩)] :=
  ⟨rfl, rfl⟩

/-- C1 (amended): for every poll whose fetch succeeds with an empty (or
absent) snapshot, the client returns immediately: no event of any kind is
emitted and `KnownAlertSet` is left exactly unchanged; known ids are lifted
only when a later non-empty snapshot omits them. -/
theorem c1_empty_snapshot_no_events (alerts : AlertDict) :
    processSnapshot alerts [] = LoopRes.ok alerts [] [] := rfl

/-- C2: for a well-formed payload of a successfully processed snapshot,
under the feed invariant that serials never decrease for a live id
(spec section 3), the per-alert step of `_get_request` emits `update` for a
known id exactly when the serial strictly increases — an equal serial emits
nothing — and emits `new` exactly when the id is unknown. -/
theorem c2_update_iff_serial_increase (alerts : AlertDict) (d : Payload)
    (hm : d.malformed = false) :
    (∀ e : EEW, dget alerts d.id = some e → e.serial ≤ d.serial →
      eventsOf (processPayload alerts d) =
        (if e.serial < d.serial then [Event.update d.id d.serial] else [])) ∧
    (dget alerts d.id = none →
      eventsOf (processPayload alerts d) = [Event.new d.id d.serial]) := by
  constructor
  · intro e hg hle
    by_cases hs : e.serial = d.serial
    · simp [processPayload, hg, hs, eventsOf]
    · have hlt : e.serial < d.serial := lt_of_le_of_ne hle hs
      simp [processPayload, hg, hs, fromDict, hm, eventsOf, hlt]
  · intro hg
    simp [processPayload, hg, fromDict, hm, eventsOf]

/-- C2 witness: a known alert at serial 1 receiving a payload at serial 2
produces exactly one `update` event. -/
theorem c2_update_iff_serial_increase_witness :
    eventsOf (processPayload [("A", ⟨"A", 1⟩)] ⟨"A", 2, false⟩) =
      [Event.update "A" 2] := by
  have h := (c2_update_iff_serial_increase [("A", ⟨"A", 1⟩)] ⟨"A", 2, false⟩ rfl).1
    ⟨"A", 1⟩ (by simp [dget]) (by decide)
  rw [h, if_pos (by decide)]

/-- C3: for every sequence of feed snapshots processed from a fresh client,
the concatenated event trace is lifecycle well-formed: every `update` and
every `lift` concerns an id whose `new` was emitted earlier and has not yet
been followed by a `lift`. -/
theorem c3_lifecycle_trace_wellformed (snaps : List (List Payload)) :
    checkEvents (runPolls [] snaps).2 [] = true := by
  apply runPolls_inv snaps [] []
  exact ⟨List.nodup_nil, by simp [dkeys], fun id => by simp [dget]⟩

/-- C4: when the fetch of a poll fails on every attempt the retry budget of
`_get_request(3)` allows, the poll returns having emitted no event, with
`_alerts` exactly equal to its state before the poll, after recreating the
session once per retry (three times); a subsequent poll whose first fetch
succeeds diffs its snapshot against this untouched state. -/
theorem c4_retries_exhausted_no_mutation (fetch : Nat → Option (List Payload))
    (alerts : AlertDict) (hfail : ∀ k, k ≤ 3 → fetch k = none) :
    getRequest fetch alerts 3 0 = ⟨LoopRes.ok alerts [] [], 3⟩ ∧
    ∀ (fetch2 : Nat → Option (List Payload)) (data : List Payload),
      fetch2 0 = some data →
      getRequest fetch2 (alertsOf (getRequest fetch alerts 3 0).res) 3 0 =
        ⟨processSnapshot alerts data, 0⟩ := by
  have hmain : getRequest fetch alerts 3 0 = ⟨LoopRes.ok alerts [] [], 3⟩ :=
    getRequest_fail_steps fetch alerts 3 0 (fun k _ hk2 => hfail k (by omega))
  refine ⟨hmain, ?_⟩
  intro fetch2 data hf2
  rw [hmain]
  exact getRequest_success fetch2 alerts 3 0 data hf2

/-- C4 witness: a concretely always-failing fetch over a one-alert state
returns the state unchanged with no events and three session recreations,
and a following successful poll with a fresh payload `B` diffs against the
untouched state, emitting `new(B)` and lifting the untouched `A`. -/
theorem c4_retries_exhausted_no_mutation_witness :
    getRequest (fun _ => none) [("A", ⟨"A", 1⟩)] 3 0 =
      ⟨LoopRes.ok [("A", ⟨"A", 1⟩)] [] [], 3⟩ ∧
    getRequest (fun _ => some [⟨"B", 1, false⟩])
        (alertsOf (getRequest (fun _ => none) [("A", ⟨"A", 1⟩)] 3 0).res) 3 0 =
      ⟨processSnapshot [("A", ⟨"A", 1⟩)] [⟨"B", 1, false⟩], 0⟩ := by
  have h := c4_retries_exhausted_no_mutation (fun _ => none) [("A", ⟨"A", 1⟩)]
    (fun k _ => rfl)
  exact ⟨h.1, h.2 (fun _ => some [⟨"B", 1, false⟩]) [⟨"B", 1, false⟩] rfl⟩

/-- C8 counterexample: from an empty known set, a snapshot holding a
malformed payload `A` followed by a well-formed payload `B` makes the poll
task raise with no event emitted and without processing `B` at all; the
claim instead requires `A` alone to be skipped and `new(B)` to be
emitted. -/
theorem c8_malformed_not_skipped_cex :
    processSnapshot [] [⟨"A", 1, true⟩, ⟨"B", 1, false⟩] = LoopRes.exn [] [] [] ∧
    dget (alertsOf (processSnapshot [] [⟨"A", 1, true⟩, ⟨"B", 1, false⟩])) "B" =
      none := by
  constructor <;> rfl

/-- C8 (amended): when record construction fails for one alert payload the
exception escapes the poll task: the payloads before it in the snapshot are
processed normally (their events and state mutations are kept), but the
malformed payload, every later payload of the batch, and the whole lift
phase are skipped for that poll; the polling loop itself survives, a fresh
fetch task diffing against the partially updated state on the next tick. -/
theorem c8_malformed_aborts_batch (alerts a1 : AlertDict) (pre post : List Payload)
    (bad : Payload) (ev1 : List Event) (c1 : List CalcAction)
    (hpre : processLoop alerts pre = LoopRes.ok a1 ev1 c1)
    (hbad : bad.malformed = true)
    (hreach : ∀ e : EEW, dget a1 bad.id = some e → e.serial ≠ bad.serial) :
    processSnapshot alerts (pre ++ bad :: post) = LoopRes.exn a1 ev1 c1 := by
  have hstep : processPayload a1 bad = LoopRes.exn a1 [] [] := by
    cases hg : dget a1 bad.id with
    | none => simp [processPayload, hg, fromDict, hbad]
    | some e => simp [processPayload, hg, hreach e hg, fromDict, hbad]
  have hloop : processLoop alerts (pre ++ bad :: post) = LoopRes.exn a1 ev1 c1 := by
    rw [processLoop_append, hpre]
    dsimp only
    simp [processLoop, hstep]
  cases pre with
  | nil =>
    simp only [List.nil_append] at hloop ⊢
    simp [processSnapshot, hloop]
  | cons p pr =>
    simp only [List.cons_append] at hloop ⊢
    simp [processSnapshot, hloop]

/-- C8 witness: a well-formed `A` before a malformed `B` yields the raise
with `A` already inserted and its `new` event already emitted, while the
later well-formed `C` is never processed. -/
theorem c8_malformed_aborts_batch_witness :
    processSnapshot [] [⟨"A", 1, false⟩, ⟨"B", 1, true⟩, ⟨"C", 3, false⟩] =
      LoopRes.exn [("A", ⟨"A", 1⟩)] [Event.new "A" 1] [CalcAction.start "A" 1] := by
  exact c8_malformed_aborts_batch [] [("A", ⟨"A", 1⟩)] [⟨"A", 1, false⟩]
    [⟨"C", 3, false⟩] ⟨"B", 1, true⟩ [Event.new "A" 1] [CalcAction.start "A" 1]
    (by simp [processLoop, processPayload, dget, fromDict, dinsert]) rfl
    (fun e he => by simp [dget] at he)

/-- C5: for every event kind (`call` ranges over the three capability
methods) and every list of registered backends, the fan-out of
src/client/http.py returns normally — nothing propagates into the poll
loop — with one entry per backend, and the entry of each backend is exactly
that backend's own outcome, so one backend raising neither prevents nor
alters the invocation of any other backend. -/
theorem c5_dispatch_isolated (call : Backend → EEW → Except String Unit)
    (backends : List Backend) (eew : EEW) :
    dispatchEvent call backends eew =
      Except.ok (backends.map (fun b => call b eew)) ∧
    ∀ i (hi : i < backends.length),
      (backends.map (fun b => call b eew))[i]? = some (call backends[i] eew) := by
  constructor
  · rfl
  · intro i hi
    simp [List.getElem?_map, List.getElem?_eq_getElem hi]

/-- C5 witness: with a raising backend registered before a succeeding one,
`new_alert`'s gather returns normally, records the first backend's
exception, and the second backend is still invoked and still succeeds. -/
theorem c5_dispatch_isolated_witness :
    dispatchEvent Backend.sendEew [failingBackend, okBackend] ⟨"A", 1⟩ =
      Except.ok [Except.error "boom", Except.ok ()] ∧
    ([failingBackend, okBackend].map
        (fun b => Backend.sendEew b (⟨"A", 1⟩ : EEW)))[1]? =
      some (Except.ok ()) := by
  have h := c5_dispatch_isolated Backend.sendEew [failingBackend, okBackend] ⟨"A", 1⟩
  exact ⟨h.1, h.2 1 Nat.one_lt_two⟩

/-- C6: for every update event — a known id whose payload carries a
different serial and parses — `update_alert` returns normally (the
cancellation path raises nothing) and its derived-data actions contain the
cancellation of the superseded version's computation strictly before the
start of the new version's computation. -/
theorem c6_cancel_before_start (alerts : AlertDict) (d : Payload) (e : EEW)
    (hg : dget alerts d.id = some e) (hs : e.serial ≠ d.serial)
    (hm : d.malformed = false) :
    ∃ (a : AlertDict) (acts : List CalcAction),
      processPayload alerts d = LoopRes.ok a [Event.update d.id d.serial] acts ∧
      ∃ i j : Nat, i < j ∧ acts[i]? = some (CalcAction.cancel d.id e.serial) ∧
        acts[j]? = some (CalcAction.start d.id d.serial) := by
  refine ⟨dinsert alerts d.id ⟨d.id, d.serial⟩,
    [CalcAction.cancel d.id e.serial, CalcAction.start d.id d.serial],
    ?_, 0, 1, by decide, rfl, rfl⟩
  simp [processPayload, hg, hs, fromDict, hm]

/-- C6 witness: updating known alert `A` from serial 1 to serial 2 cancels
the serial-1 computation before starting the serial-2 computation. -/
theorem c6_cancel_before_start_witness :
    ∃ (a : AlertDict) (acts : List CalcAction),
      processPayload [("A", ⟨"A", 1⟩)] ⟨"A", 2, false⟩ =
        LoopRes.ok a [Event.update "A" 2] acts ∧
      ∃ i j : Nat, i < j ∧ acts[i]? = some (CalcAction.cancel "A" 1) ∧
        acts[j]? = some (CalcAction.start "A" 2) :=
  c6_cancel_before_start [("A", ⟨"A", 1⟩)] ⟨"A", 2, false⟩ ⟨"A", 1⟩
    (by simp [dget]) (by decide) rfl

theorem editMessages_fresh (beh : Nat → Bool) (u : String) (s : MsgSet)
    (m0 : Nat) (ms : List Nat) (hmsg : s.messages = m0 :: ms)
    (hfresh : s.mapUrl = none) (hbeh : beh m0 = true) :
    editMessages beh u s = ⟨⟨s.eew, s.messages, some u⟩, 1, m0 :: ms, none⟩ := by
  simp [editMessages, isFalsyUrl, hfresh, hmsg, hbeh]

theorem editMessages_cached (beh : Nat → Bool) (u2 u : String) (s : MsgSet)
    (hc : s.mapUrl = some u) (hu : u ≠ "") :
    (editMessages beh u2 s).state = s ∧ (editMessages beh u2 s).uploads = 0 := by
  have hfal : isFalsyUrl s.mapUrl = false := by
    rw [hc]
    simpa [isFalsyUrl] using hu
  cases hm : s.messages with
  | nil => simp [editMessages, hfal, hm]
  | cons m0 rest => simp [editMessages, hfal, hm]

theorem runTicks_cached (beh : Nat → Bool) (urls : List String) (u : String)
    (s : MsgSet) (hc : s.mapUrl = some u) (hu : u ≠ "") :
    runTicks beh urls s = (s, 0) := by
  induction urls with
  | nil => rfl
  | cons u2 rest ih =>
    have h := editMessages_cached beh u2 u s hc hu
    simp [runTicks, h.1, h.2, ih]

/-- C7: from a freshly installed alert version (`map_url = None`) with at
least one destination message whose primary edit succeeds, a run of refresh
ticks uploads the map artifact exactly once — on the first tick, which also
caches the non-empty platform URL — and every later tick of that version
performs zero uploads; installing a new version through
`update_eew_data` resets the cache to `None`, after which the same run of
ticks again uploads exactly once for the new version. -/
theorem c7_map_uploaded_once_per_version (beh : Nat → Bool) (m0 : Nat)
    (ms : List Nat) (e2 : EEW) (u : String) (urls : List String) (s : MsgSet)
    (hmsg : s.messages = m0 :: ms) (hfresh : s.mapUrl = none)
    (hbeh : beh m0 = true) (hu : u ≠ "") :
    (runTicks beh (u :: urls) s).2 = 1 ∧
    (runTicks beh (u :: urls) s).1 = ⟨s.eew, s.messages, some u⟩ ∧
    (updateEewData e2 (runTicks beh (u :: urls) s).1).mapUrl = none ∧
    (runTicks beh (u :: urls)
      (updateEewData e2 (runTicks beh (u :: urls) s).1)).2 = 1 := by
  have hfirst := editMessages_fresh beh u s m0 ms hmsg hfresh hbeh
  have hcached : runTicks beh urls (⟨s.eew, s.messages, some u⟩ : MsgSet) =
      (⟨s.eew, s.messages, some u⟩, 0) :=
    runTicks_cached beh urls u _ rfl hu
  have hrun : runTicks beh (u :: urls) s = (⟨s.eew, s.messages, some u⟩, 1) := by
    simp [runTicks, hfirst, hcached]
  have hfirst2 := editMessages_fresh beh u
    (⟨e2, s.messages, none⟩ : MsgSet) m0 ms hmsg rfl hbeh
  have hcached2 : runTicks beh urls (⟨e2, s.messages, some u⟩ : MsgSet) =
      (⟨e2, s.messages, some u⟩, 0) :=
    runTicks_cached beh urls u _ rfl hu
  have hrun2 : runTicks beh (u :: urls) (⟨e2, s.messages, none⟩ : MsgSet) =
      (⟨e2, s.messages, some u⟩, 1) := by
    simp [runTicks, hfirst2, hcached2]
  refine ⟨by rw [hrun], by rw [hrun], by rw [hrun]; rfl, ?_⟩
  rw [hrun]
  show (runTicks beh (u :: urls) (⟨e2, s.messages, none⟩ : MsgSet)).2 = 1
  rw [hrun2]

/-- C7 witness: one message handle, a run of three ticks, an update to
serial 2, and three further ticks: each version uploads the map exactly
once. -/
theorem c7_map_uploaded_once_per_version_witness :
    (runTicks (fun _ => true) ["u1", "u2", "u3"]
      ⟨⟨"A", 1⟩, [7], none⟩).2 = 1 ∧
    (runTicks (fun _ => true) ["u1", "u2", "u3"]
      (updateEewData ⟨"A", 2⟩
        (runTicks (fun _ => true) ["u1", "u2", "u3"]
          ⟨⟨"A", 1⟩, [7], none⟩).1)).2 = 1 := by
  have h := c7_map_uploaded_once_per_version (fun _ => true) 7 []
    ⟨"A", 2⟩ "u1" ["u2", "u3"] ⟨⟨"A", 1⟩, [7], none⟩ rfl rfl rfl (by decide)
  exact ⟨h.1, h.2.2.2⟩

/-- C9 counterexample: an alert with two destination messages `10` and `20`
on its first refresh tick (map URL not yet cached) whose primary edit
raises: `edit` propagates the exception, only message `10` had an edit
attempted and message `20` is never edited — refuting the claim that one
destination's failing edit cannot prevent or fail the edits of the
others. -/
theorem c9_primary_edit_failure_cex :
    (editMessages (fun n => n != 10) "u" ⟨⟨"A", 1⟩, [10, 20], none⟩).raised =
      some EditErr.editError ∧
    (editMessages (fun n => n != 10) "u" ⟨⟨"A", 1⟩, [10, 20], none⟩).attempted =
      [10] ∧
    20 ∉ (editMessages (fun n => n != 10) "u"
      ⟨⟨"A", 1⟩, [10, 20], none⟩).attempted := by
  refine ⟨rfl, rfl, by decide⟩

/-- C9 (amended): once the map URL is cached for the current alert version,
the per-destination edits of a refresh tick are isolated — every message's
edit is attempted whatever the other edits do, nothing propagates, and the
set's state is untouched; on the tick that uploads the map (URL not yet
cached) the primary message's edit is not isolated: if it raises, the
exception escapes `edit` and no other message of the set is edited on that
tick. -/
theorem c9_edit_isolation_amended :
    (∀ (beh : Nat → Bool) (u2 u : String) (s : MsgSet) (m0 : Nat) (ms : List Nat),
      s.mapUrl = some u → u ≠ "" → s.messages = m0 :: ms →
      (editMessages beh u2 s).raised = none ∧
      (editMessages beh u2 s).attempted = s.messages ∧
      (editMessages beh u2 s).state = s) ∧
    (∀ (beh : Nat → Bool) (u2 : String) (s : MsgSet) (m0 : Nat) (ms : List Nat),
      s.mapUrl = none → s.messages = m0 :: ms → beh m0 = false →
      (editMessages beh u2 s).raised = some EditErr.editError ∧
      (editMessages beh u2 s).attempted = [m0]) := by
  constructor
  · intro beh u2 u s m0 ms hc hu hmsg
    have hfal : isFalsyUrl s.mapUrl = false := by
      rw [hc]
      simpa [isFalsyUrl] using hu
    simp [editMessages, hfal, hmsg]
  · intro beh u2 s m0 ms hfresh hmsg hbeh
    simp [editMessages, isFalsyUrl, hfresh, hmsg, hbeh]

/-- C9 witness: with the URL cached, a tick whose primary edit fails still
attempts both messages, raises nothing and leaves the state unchanged. -/
theorem c9_edit_isolation_amended_witness :
    (editMessages (fun n => n != 10) "u2" ⟨⟨"A", 1⟩, [10, 20], some "u"⟩).raised =
      none ∧
    (editMessages (fun n => n != 10) "u2"
      ⟨⟨"A", 1⟩, [10, 20], some "u"⟩).attempted = [10, 20] := by
  have h := c9_edit_isolation_amended.1 (fun n => n != 10) "u2" "u"
    ⟨⟨"A", 1⟩, [10, 20], some "u"⟩ 10 [20] rfl (by decide) rfl
  exact ⟨h.1, h.2.1⟩

/-- C10: when every configured destination rejects the initial send, the
`EEWMessages` is built with an empty message list, is stored in the registry
anyway, the refresh loop's stop check does not fire, and the next refresh
tick of that set — its map URL still uncached — unconditionally indexes the
first element of the empty list, so `edit` raises an `IndexError` rather
than skipping or returning an option. -/
theorem c10_empty_message_list_index_error (sendBeh beh : Nat → Bool)
    (channels : List Nat) (e : EEW) (alerts : List (String × MsgSet))
    (u : String) (hfail : ∀ ch ∈ channels, sendBeh ch = false) :
    (sendMsgSet sendBeh channels e).messages = [] ∧
    dget (sendEewRegistry sendBeh channels e alerts) e.id =
      some (sendMsgSet sendBeh channels e) ∧
    tickStops (sendEewRegistry sendBeh channels e alerts) = false ∧
    (editMessages beh u (sendMsgSet sendBeh channels e)).raised =
      some EditErr.indexError := by
  have hflt : channels.filter sendBeh = [] := by
    rw [List.filter_eq_nil_iff]
    intro ch hch
    simp [hfail ch hch]
  refine ⟨by simp [sendMsgSet, hflt], ?_, ?_, ?_⟩
  · rw [sendEewRegistry, dget_dinsert]
    simp
  · have hne := dinsert_ne_nil alerts e.id (sendMsgSet sendBeh channels e)
    rw [sendEewRegistry, tickStops]
    simpa [List.isEmpty_iff] using hne
  · simp [editMessages, isFalsyUrl, sendMsgSet, hflt]

/-- C10 witness: two channels that both reject the send produce an empty
message set, stored under `A` in the registry, the loop keeps running, and
the next tick's edit raises `IndexError`. -/
theorem c10_empty_message_list_index_error_witness :
    (sendMsgSet (fun _ => false) [1, 2] ⟨"A", 1⟩).messages = [] ∧
    dget (sendEewRegistry (fun _ => false) [1, 2] ⟨"A", 1⟩ []) "A" =
      some (sendMsgSet (fun _ => false) [1, 2] ⟨"A", 1⟩) ∧
    tickStops (sendEewRegistry (fun _ => false) [1, 2] ⟨"A", 1⟩ []) = false ∧
    (editMessages (fun _ => true) "u"
      (sendMsgSet (fun _ => false) [1, 2] ⟨"A", 1⟩)).raised =
      some EditErr.indexError :=
  c10_empty_message_list_index_error (fun _ => false) (fun _ => true) [1, 2]
    ⟨"A", 1⟩ [] "u" (fun _ _ => rfl)

end EEWSpec
